import Mathlib

/-!
Verification development for the dag-visualizer repository.

The embedding models, faithfully to the TypeScript sources:
* `src/shared/utils/fileProcessors.ts` — `processTxtFile` and `processJsonFile`,
  with JavaScript strings modelled over `List Char` and parsed JSON values
  modelled by the inductive type `JValue` (`processJsonFile` is embedded at the
  level of the `JSON.parse` result; a parse failure is an `Except.error`
  carrying the parser message, matching the `try/catch` in the source).
* `GraphVisualizer` (resize logic) — `getShapeConstraints` and
  `handleResizeMove`, with pixel arithmetic over `Rat` (the JS numbers are
  IEEE doubles; the modelled quantities are exact and the theorems restrict to
  positive zoom, where the two agree up to rounding).
* `GraphVisualizer` (imperative facade) — `applyLayout` and the `layoutstop`
  handler as a transition system over an explicit `FacadeState`.
-/

namespace DagViz

/-! ### JavaScript string primitives

JS `trim`, `split`, `includes` and the `\s`/`\w` character classes, modelled
over `List Char`.  `jsWhite` covers the ASCII part of the JS `\s` class;
`isWordChar` is exactly the JS `\w` class `[A-Za-z0-9_]`. -/

def jsWhite (c : Char) : Bool :=
  c = ' ' || c = '\t' || c = '\n' || c = '\r' || c = '\x0b' || c = '\x0c'

def isWordChar (c : Char) : Bool :=
  c.isAlpha || c.isDigit || c = '_'

/-- JS `String.prototype.trim`: drop leading and trailing whitespace. -/
def jsTrimList (cs : List Char) : List Char :=
  ((cs.dropWhile jsWhite).reverse.dropWhile jsWhite).reverse

def jsTrim (s : String) : String := ⟨jsTrimList s.data⟩

/-- JS `String.prototype.split` with a single-character separator.
`splitOnCharAux sep acc cs` accumulates the current piece in `acc`
(reversed). -/
def splitOnCharAux (sep : Char) (acc : List Char) : List Char → List (List Char)
  | [] => [acc.reverse]
  | c :: rest =>
    if c = sep then acc.reverse :: splitOnCharAux sep [] rest
    else splitOnCharAux sep (c :: acc) rest

def splitOnChar (sep : Char) (cs : List Char) : List (List Char) :=
  splitOnCharAux sep [] cs

/-- JS `String.prototype.split(/\s+/)` on an already-trimmed string: the
whitespace-run tokenizer.  Leading whitespace and empty pieces cannot occur on
trimmed input, so the tokens are the maximal non-whitespace runs. -/
def splitWsAux (acc : List Char) : List Char → List String
  | [] => if acc.isEmpty then [] else [⟨acc.reverse⟩]
  | c :: rest =>
    if jsWhite c then
      if acc.isEmpty then splitWsAux [] rest
      else (⟨acc.reverse⟩ : String) :: splitWsAux [] rest
    else splitWsAux (c :: acc) rest

/-- `line.trim().split(/\s+/)` as in the simple edge-list branch.  JS returns
`[""]` for the empty string; on a non-empty trimmed string the result is the
list of maximal non-whitespace runs. -/
def jsSplitWs (s : String) : List String :=
  let t := jsTrimList s.data
  if t.isEmpty then [""] else splitWsAux [] t

/-- JS `String.prototype.includes`, i.e. substring presence. -/
def hasSubstr (pat : List Char) : List Char → Bool
  | [] => pat.isEmpty
  | c :: cs => pat.isPrefixOf (c :: cs) || hasSubstr pat cs

/-! ### The edge-line regex

`line.match(/(?:\d+\.\s*)?(\w+)\s*-->\s*(\w+)/)` from the headered-text
branch.  The pattern is effectively deterministic: every greedy sub-pattern is
followed by a character that cannot extend it (after giving back a character
from `\w+` the next character is a word character, which cannot start `-->`;
after giving back a character from `\s*` the next character is whitespace), so
maximal munch plus the one optional-group alternative is a faithful
implementation of the backtracking search.  The scan tries each start
position left to right, as JS `match` does. -/

/-- Match `(\w+)\s*-->\s*(\w+)` at the start of `cs`, returning the two
capture groups. -/
def matchCore (cs : List Char) : Option (String × String) :=
  let w1 := cs.takeWhile isWordChar
  if w1.isEmpty then none
  else
    let r1 := (cs.dropWhile isWordChar).dropWhile jsWhite
    match r1 with
    | '-' :: '-' :: '>' :: r2 =>
      let r3 := r2.dropWhile jsWhite
      let w2 := r3.takeWhile isWordChar
      if w2.isEmpty then none else some (⟨w1⟩, ⟨w2⟩)
    | _ => none

/-- Match the full pattern at the start of `cs`: first with the optional
`\d+\.\s*` prefix, then without it. -/
def matchAt (cs : List Char) : Option (String × String) :=
  let ds := cs.takeWhile Char.isDigit
  let viaNum : Option (String × String) :=
    if ds.isEmpty then none
    else
      match cs.dropWhile Char.isDigit with
      | '.' :: r => matchCore (r.dropWhile jsWhite)
      | _ => none
  match viaNum with
  | some p => some p
  | none => matchCore cs

/-- Scan for the leftmost match, as JS `String.prototype.match` does. -/
def findEdgeMatch : List Char → Option (String × String)
  | [] => none
  | c :: rest =>
    match matchAt (c :: rest) with
    | some p => some p
    | none => findEdgeMatch rest

/-! ### JSON values and the canonical graph document

`JValue` models the result of `JSON.parse` plus the JS value `undefined`
(which property access produces for absent keys).  Produced node and edge
objects are modelled as ordered key/value records (`JRecord`), matching JS
object-literal semantics; `GraphMetadata` and `GraphData` follow the shape
every processor constructs.

The `GraphData`/`GraphMetadata` structures follow the declaration of
`shared/types/graph.ts` (present among the sources): nodes and edges are open
records carrying `id`/`label` (edges also `source`/`target`) plus arbitrary
scalar-valued keys, and `metadata` carries
`{fileType, fileName, nodeCount, edgeCount}` — exactly the shape every
processor below constructs. -/

inductive JValue where
  | null
  | undefined
  | bool (b : Bool)
  | num (n : Int)
  | str (s : String)
  | arr (elems : List JValue)
  | obj (fields : List (String × JValue))

abbrev JRecord := List (String × JValue)

structure GraphMetadata where
  fileType : String
  fileName : String
  nodeCount : Nat
  edgeCount : Nat
deriving DecidableEq

structure GraphData where
  nodes : List JRecord
  edges : List JRecord
  metadata : GraphMetadata

/-- JS truthiness (`NaN` is not representable in this model). -/
def JValue.truthy : JValue → Bool
  | .null => false
  | .undefined => false
  | .bool b => b
  | .num n => n ≠ 0
  | .str s => s ≠ ""
  | .arr _ => true
  | .obj _ => true

/-- Key lookup in an object field list; absent keys give `undefined`. -/
def recGetD : JRecord → String → JValue
  | [], _ => .undefined
  | (k0, v0) :: rest, k => if k0 = k then v0 else recGetD rest k

/-! ### `processTxtFile` (shared/utils/fileProcessors.ts)

The single mutating loop of the source (which pushes onto `edges` and inserts
into `nodeSet` as it scans) is split into one pass that collects the parsed
lines and separate folds that build the insertion-ordered node set and the
edge records; the adds to the two independent variables commute, so the final
values coincide with the source loop. -/

def nodesMarker : String := "Graph Nodes:"
def edgesMarker : String := "Graph Edges:"

/-- `content.trim().split('\n').filter(line => line.trim())`. -/
def txtLines (content : String) : List String :=
  ((splitOnChar '\n' (jsTrim content).data).map fun cs => (⟨cs⟩ : String)).filter
    fun l => jsTrim l ≠ ""

/-- The node names parsed from the line following the `Graph Nodes:` marker:
`nodesLine.split(';').map(n => n.trim()).filter(n => n)`. -/
def headerNames (lines : List String) (ni : Nat) : List String :=
  match lines.get? (ni + 1) with
  | none => []
  | some l => ((splitOnChar ';' l.data).map fun cs => jsTrim ⟨cs⟩).filter fun n => n ≠ ""

/-- The source/target pairs matched on the lines after the `Graph Edges:`
marker line. -/
def headerEdgePairs (lines : List String) (ei : Nat) : List (String × String) :=
  (lines.drop (ei + 1)).filterMap fun l => findEdgeMatch (jsTrim l).data

/-- JS `Set` insertion: keep insertion order, ignore duplicates. -/
def setAdd (s : List String) (x : String) : List String :=
  if x ∈ s then s else s ++ [x]

def addAll (s : List String) (xs : List String) : List String :=
  xs.foldl setAdd s

def addEndpoints (s : List String) (ps : List (String × String)) : List String :=
  ps.foldl (fun acc p => setAdd (setAdd acc p.1) p.2) s

def mkTxtNode (s : String) : JRecord := [("id", .str s), ("label", .str s)]

/-- Headered-mode edge object: `{id: edge-<count>, source, target}` where the
index counts the edges pushed so far. -/
def mkHeaderEdge (i : Nat) (p : String × String) : JRecord :=
  [("id", .str ("edge-" ++ toString i)), ("source", .str p.1), ("target", .str p.2)]

def mapWithIndex (f : Nat → α → β) : Nat → List α → List β
  | _, [] => []
  | i, x :: xs => f i x :: mapWithIndex f (i + 1) xs

/-- Simple-mode scan: for each non-blank line (with its original index) whose
whitespace-split has at least two tokens, record
`(index, source, target, remaining tokens)`. -/
def simpleParsed : Nat → List String → List (Nat × String × String × List String)
  | _, [] => []
  | i, l :: rest =>
    match jsSplitWs l with
    | s :: t :: rem => (i, s, t, rem) :: simpleParsed (i + 1) rest
    | _ => simpleParsed (i + 1) rest

/-- `parts.slice(2).join(' ') || undefined`. -/
def simpleLabel (rem : List String) : JValue :=
  let j := String.intercalate " " rem
  if j = "" then .undefined else .str j

/-- Simple-mode edge object: `{id: edge-<lineIndex>, source, target, label}`
(the `label` key is present, possibly with value `undefined`). -/
def mkSimpleEdge (q : Nat × String × String × List String) : JRecord :=
  [("id", .str ("edge-" ++ toString q.1)), ("source", .str q.2.1),
   ("target", .str q.2.2.1), ("label", simpleLabel q.2.2.2)]

/-- The parsing core of `processTxtFile`: the insertion-ordered node set and
the edge records. -/
def txtParse (content : String) : List String × List JRecord :=
  let lines := txtLines content
  if hasSubstr nodesMarker.data content.data && hasSubstr edgesMarker.data content.data then
    match lines.findIdx? (fun l => hasSubstr nodesMarker.data l.data),
          lines.findIdx? (fun l => hasSubstr edgesMarker.data l.data) with
    | some ni, some ei =>
      let ps := headerEdgePairs lines ei
      (addEndpoints (addAll [] (headerNames lines ni)) ps, mapWithIndex mkHeaderEdge 0 ps)
    | _, _ => (([] : List String), ([] : List JRecord))
  else
    let qs := simpleParsed 0 lines
    (addEndpoints [] (qs.map fun q => (q.2.1, q.2.2.1)), qs.map mkSimpleEdge)

/-- `processTxtFile(content, fileName)`.  Total, as the source is: every
partial JS operation in the body is guarded (`lines[nodesLineIndex + 1]` is
checked for `undefined`, `match` results are null-checked, `parts[0]`/`[1]`
exist when `parts.length >= 2`). -/
def processTxtFile (content fileName : String) : GraphData :=
  let pair := txtParse content
  let nodes := pair.1.map mkTxtNode
  { nodes := nodes, edges := pair.2,
    metadata := { fileType := "txt", fileName := fileName,
                  nodeCount := nodes.length, edgeCount := pair.2.length } }

/-- The header-line names actually used by the headered branch (empty unless
both marker lines are found, exactly as in the source, where the node-parsing
block is guarded by both `findIndex` results). -/
def headerNamesOf (content : String) : List String :=
  let lines := txtLines content
  match lines.findIdx? (fun l => hasSubstr nodesMarker.data l.data),
        lines.findIdx? (fun l => hasSubstr edgesMarker.data l.data) with
  | some ni, some _ => headerNames lines ni
  | _, _ => []

/-- The id fields of a document's nodes. -/
def nodeIdsOf (d : GraphData) : List JValue := d.nodes.map fun r => recGetD r "id"

/-! ### `processJsonFile` (shared/utils/fileProcessors.ts)

The embedding works on the `JSON.parse` result: `Except.error msg` models a
parse failure with parser message `msg`.  The whole body of the source sits in
one `try`/`catch` whose handler rethrows `Invalid JSON file: <message>`, so
every failure (parse error, the schema throw, a `TypeError` from property
access on `null`, or `.map` on a non-array) is wrapped with that prefix —
once per recursion level for the nested-graph branch, since the recursive
call sits inside the outer `try`. -/

/-- Property access on a value that is not `null`/`undefined`: objects look
keys up, primitives and arrays have no such named properties and give
`undefined`.  (JS would throw on a `null` receiver; every call site below
either guards with truthiness, as the source does via `&&` short-circuiting,
or pattern-matches `null`/`undefined` away first.) -/
def jsGet : JValue → String → JValue
  | .obj fs, k => recGetD fs k
  | _, _ => .undefined

/-- Property access including the `TypeError` thrown on `null`/`undefined`
receivers (the V8 message also quotes the key; the exact text is irrelevant
to the claims, only that it differs from the schema message). -/
def JValue.getE : JValue → String → Except String JValue
  | .null, k => .error ("Cannot read properties of null (reading " ++ k ++ ")")
  | .undefined, k => .error ("Cannot read properties of undefined (reading " ++ k ++ ")")
  | .obj fs, k => .ok (recGetD fs k)
  | _, _ => .ok .undefined

/-- JS `a || b` (on the values the processors feed it). -/
def jsOr (a b : JValue) : JValue := if a.truthy then a else b

/-- `typeof value === 'string' || … 'number' || … 'boolean'`. -/
def JValue.isScalar : JValue → Bool
  | .str _ => true
  | .num _ => true
  | .bool _ => true
  | _ => false

/-- Index/value pairs of a list, counting from `i`. -/
def idxPairs (i : Nat) : List α → List (Nat × α)
  | [] => []
  | x :: xs => (i, x) :: idxPairs (i + 1) xs

/-- `Object.entries`: own enumerable properties (objects and arrays; strings
have index properties; other primitives have none; `null`/`undefined`
throw). -/
def jsEntries : JValue → Except String (List (String × JValue))
  | .null => .error "Cannot convert undefined or null to object"
  | .undefined => .error "Cannot convert undefined or null to object"
  | .obj fs => .ok fs
  | .arr xs => .ok ((idxPairs 0 xs).map fun p => (toString p.1, p.2))
  | .str s => .ok ((idxPairs 0 s.data).map fun p => (toString p.1, .str ⟨[p.2]⟩))
  | _ => .ok []

/-- Object-literal spread: assigning an existing key overwrites in place,
a new key is appended (JS property-order semantics). -/
def recSet (r : JRecord) (k : String) (v : JValue) : JRecord :=
  if r.any (fun p => p.1 = k) then r.map fun p => if p.1 = k then (k, v) else p
  else r ++ [(k, v)]

/-- `.length` of an array (also defined on strings). -/
def jsLengthNat : JValue → Nat
  | .arr xs => xs.length
  | .str s => s.length
  | _ => 0

/-- Sequential fallible map with indices (JS `Array.prototype.map` where the
callback may throw: the first throw aborts). -/
def mapME (f : Nat → JValue → Except String α) : Nat → List JValue → Except String (List α)
  | _, [] => .ok []
  | i, x :: xs =>
    match f i x with
    | .error e => .error e
    | .ok y =>
      match mapME f (i + 1) xs with
      | .error e => .error e
      | .ok ys => .ok (y :: ys)

/-- `v.map((x, i) => f i x)` for an array `v`; anything else throws the usual
`TypeError` (the source message names the receiver; the text is irrelevant to
the claims). -/
def jsMapIdxM (v : JValue) (f : Nat → JValue → Except String α) :
    Except String (List α) :=
  match v with
  | .arr xs => mapME f 0 xs
  | _ => .error "map is not a function"

/-- Custom-branch node object.  The JS `||` chains only read further
properties when the earlier ones are falsy; since every read here throws only
when `node` itself is `null`/`undefined` — in which case the first read
already throws — reading them in sequence is equivalent. -/
def customNodeRec (index : Nat) (node : JValue) : Except String JRecord := do
  let nm ← node.getE "name"
  let idv ← node.getE "id"
  let nodeId := jsOr nm (jsOr idv (.str ("node-" ++ toString index)))
  let cx ← node.getE "centerX"
  let cy ← node.getE "centerY"
  let nt ← node.getE "nodeType"
  let nvt ← node.getE "nodeVariableType"
  pure [("id", nodeId), ("label", nodeId), ("centerX", cx), ("centerY", cy),
        ("nodeType", nt), ("nodeVariableType", nvt)]

/-- Custom-branch edge object (`edge.node1.name`/`edge.node2.name` with the
`node1-<i>`/`node2-<i>` fallbacks). -/
def customEdgeRec (index : Nat) (edge : JValue) : Except String JRecord := do
  let n1 ← edge.getE "node1"
  let n2 ← edge.getE "node2"
  let n1name ← n1.getE "name"
  let n2name ← n2.getE "name"
  let source := jsOr n1name (.str ("node1-" ++ toString index))
  let target := jsOr n2name (.str ("node2-" ++ toString index))
  let e1 ← edge.getE "endpoint1"
  let e2 ← edge.getE "endpoint2"
  let pb ← edge.getE "probability"
  pure [("id", .str ("edge-" ++ toString index)), ("source", source),
        ("target", target), ("endpoint1", e1), ("endpoint2", e2),
        ("probability", pb)]

/-- The custom nested-graph branch (`jsonData.graph.nodes` /
`jsonData.graph.edgesSet`). -/
def customBranch (graphData : JValue) (fileName : String) :
    Except String GraphData := do
  let nodes ← jsMapIdxM (jsGet graphData "nodes") customNodeRec
  let edges ← jsMapIdxM (jsGet graphData "edgesSet") customEdgeRec
  pure { nodes := nodes, edges := edges,
         metadata := { fileType := "json", fileName := fileName,
                       nodeCount := nodes.length, edgeCount := edges.length } }

/-- Standard-branch node object: `{id: …, label: …, ...scalarFields}`. -/
def stdNodeRec (index : Nat) (node : JValue) : Except String JRecord := do
  let idv ← node.getE "id"
  let nmv ← node.getE "name"
  let lbv ← node.getE "label"
  let entries ← jsEntries node
  let base : JRecord :=
    [("id", jsOr idv (jsOr nmv (.str ("node-" ++ toString index)))),
     ("label", jsOr lbv (jsOr nmv (jsOr idv (.str ("Node " ++ toString index)))))]
  pure ((entries.filter fun p => p.2.isScalar).foldl
    (fun r p => recSet r p.1 p.2) base)

/-- Standard-branch edge object: `{id, source, target, label, ...scalars}`
with the `from`/`to`/`name` fallbacks. -/
def stdEdgeRec (index : Nat) (edge : JValue) : Except String JRecord := do
  let idv ← edge.getE "id"
  let sv ← edge.getE "source"
  let fv ← edge.getE "from"
  let tv ← edge.getE "target"
  let tov ← edge.getE "to"
  let lv ← edge.getE "label"
  let nv ← edge.getE "name"
  let entries ← jsEntries edge
  let base : JRecord :=
    [("id", jsOr idv (.str ("edge-" ++ toString index))),
     ("source", jsOr sv fv), ("target", jsOr tv tov), ("label", jsOr lv nv)]
  pure ((entries.filter fun p => p.2.isScalar).foldl
    (fun r p => recSet r p.1 p.2) base)

/-- The standard `{nodes, edges}` branch. -/
def standardBranch (jsonData : JValue) (fileName : String) :
    Except String GraphData := do
  let nodes ← jsMapIdxM (jsGet jsonData "nodes") stdNodeRec
  let edges ← jsMapIdxM (jsGet jsonData "edges") stdEdgeRec
  pure { nodes := nodes, edges := edges,
         metadata := { fileType := "json", fileName := fileName,
                       nodeCount := jsLengthNat (jsGet jsonData "nodes"),
                       edgeCount := jsLengthNat (jsGet jsonData "edges") } }

def invalidPrefix : String := "Invalid JSON file: "

/-- The message of the schema throw (source line: `throw new Error('JSON
format not recognized. …')`). -/
def schemaMsg : String :=
  "JSON format not recognized. Expected \x7bnodes: [], edges: []\x7d or custom graph structure."

/-- The `catch` handler: wrap any error message with the prefix. -/
def wrapE (r : Except String GraphData) : Except String GraphData :=
  match r with
  | .ok d => .ok d
  | .error e => .error (invalidPrefix ++ e)

theorem sizeOf_recGetD_lt (fs : JRecord) (k : String)
    (h : (recGetD fs k).truthy = true) : sizeOf (recGetD fs k) < sizeOf fs := by
  induction fs with
  | nil => simp [recGetD, JValue.truthy] at h
  | cons p rest ih =>
    obtain ⟨k0, v0⟩ := p
    by_cases hk : k0 = k
    · simp only [recGetD, if_pos hk]
      simp only [List.cons.sizeOf_spec, Prod.mk.sizeOf_spec]
      omega
    · simp only [recGetD, if_neg hk] at h ⊢
      have := ih h
      simp only [List.cons.sizeOf_spec]
      omega

/-- `processJsonFile` after `JSON.parse` succeeded.  The top-level `null`
(and the unreachable `undefined`) fail with the wrapped `TypeError` from
`jsonData.graph`; on primitives and arrays every named property is
`undefined`, so all three branch guards are false and the schema error is
thrown; on objects the three branches are tried in source order.  The
nested-graph branch recurses (the source round-trips through
`JSON.stringify`/`JSON.parse`, the identity on parse-produced values), and
its errors are wrapped a second time by the outer `catch`. -/
def processJsonValue : JValue → String → Except String GraphData
  | .null, _ =>
      .error (invalidPrefix ++ "Cannot read properties of null (reading graph)")
  | .undefined, _ =>
      .error (invalidPrefix ++ "Cannot read properties of undefined (reading graph)")
  | .obj fields, fileName =>
    if (recGetD fields "graph").truthy && (jsGet (recGetD fields "graph") "edgesSet").truthy
        && (jsGet (recGetD fields "graph") "nodes").truthy then
      wrapE (customBranch (recGetD fields "graph") fileName)
    else if (recGetD fields "nodes").truthy && (recGetD fields "edges").truthy then
      wrapE (standardBranch (.obj fields) fileName)
    else if h : (recGetD fields "graph").truthy then
      wrapE (processJsonValue (recGetD fields "graph") fileName)
    else .error (invalidPrefix ++ schemaMsg)
  | _, _ => .error (invalidPrefix ++ schemaMsg)
termination_by v _ => sizeOf v
decreasing_by
  have hlt := sizeOf_recGetD_lt _ "graph" h
  simp only [JValue.obj.sizeOf_spec]
  omega

/-- `processJsonFile(content, fileName)` at the level of the `JSON.parse`
result: a parse failure is rethrown by the `catch` with the prefix. -/
def processJsonFile (parsed : Except String JValue) (fileName : String) :
    Except String GraphData :=
  match parsed with
  | .error msg => .error (invalidPrefix ++ msg)
  | .ok v => processJsonValue v fileName

/-! ### The upload handler (components/modals/FileUploadModal.tsx)

`handleUpload` calls `onDataUploaded(processedData)` only when processing
succeeded; on failure it only records the error message, leaving the
previously uploaded document untouched. -/

structure ShapeConstraints where
  keepAspect : Bool
  minSize : Rat
  maxSize : Rat

/-- `getShapeConstraints(shape)`. -/
def getShapeConstraints (shape : String) : ShapeConstraints :=
  if shape = "circle" || shape = "square" then ⟨true, 30, 200⟩
  else if shape = "diamond" then ⟨true, 30, 200⟩
  else ⟨false, 30, 200⟩

/-- The drag state recorded by `handleResizeStart` (the fields the move
handler reads). -/
structure DragState where
  position : String
  originalWidth : Rat
  originalHeight : Rat
  shape : String

/-- `Math.max(min, Math.min(max, x))`. -/
def clampSize (c : ShapeConstraints) (x : Rat) : Rat :=
  max c.minSize (min c.maxSize x)

/-- The corner `switch` of `handleResizeMove`: clamped width/height from the
zoom-adjusted deltas (already divided by `sensitivity = 2`).  A position
outside the four corners leaves the original sizes (the `switch` has no
default case). -/
def cornerSizes (ds : DragState) (adjX adjY : Rat) : Rat × Rat :=
  let c := getShapeConstraints ds.shape
  if ds.position = "br" then
    (clampSize c (ds.originalWidth + adjX / 2), clampSize c (ds.originalHeight + adjY / 2))
  else if ds.position = "bl" then
    (clampSize c (ds.originalWidth - adjX / 2), clampSize c (ds.originalHeight + adjY / 2))
  else if ds.position = "tr" then
    (clampSize c (ds.originalWidth + adjX / 2), clampSize c (ds.originalHeight - adjY / 2))
  else if ds.position = "tl" then
    (clampSize c (ds.originalWidth - adjX / 2), clampSize c (ds.originalHeight - adjY / 2))
  else (ds.originalWidth, ds.originalHeight)

structure ResizeResult where
  width : Rat
  height : Rat

/-- One tick of `handleResizeMove`: deltas divided by the zoom factor, corner
switch with clamping, then — after the clamps — the aspect-ratio override for
regular shapes.  (In JS, `zoom = 0` would give infinite deltas; cytoscape
zoom is positive, and the theorems below assume `0 < zoom`.) -/
def handleResizeMove (ds : DragState) (deltaX deltaY zoom : Rat) : ResizeResult :=
  let adjX := deltaX / zoom
  let adjY := deltaY / zoom
  let c := getShapeConstraints ds.shape
  let wh := cornerSizes ds adjX adjY
  if c.keepAspect then
    let aspect := ds.originalWidth / ds.originalHeight
    if |adjX| > |adjY| then ⟨wh.1, wh.1 / aspect⟩
    else ⟨wh.2 * aspect, wh.2⟩
  else ⟨wh.1, wh.2⟩

/-! ### The layout facade (GraphVisualizer: `applyLayout` and `layoutstop`)

The observable state of the component: whether a cytoscape instance exists,
the layout-running flag, the current resize-handle list, and the log of
layouts actually started (`layout.run()` calls).  `applyLayout` follows the
source line by line: the guard, then `setIsLayoutRunning(true)` and
`clearResizeHandles()`, then the config lookup with its early return. -/

structure FacadeState where
  hasCy : Bool
  isLayoutRunning : Bool
  resizeHandles : List String
  startedLayouts : List String
  selectedCount : Nat
deriving DecidableEq

/-- The keys of `AVAILABLE_LAYOUTS` (shared/constants/layouts.ts). -/
def layoutKeys : List String :=
  ["dagre", "circle", "concentric", "grid", "breadthfirst", "cose"]

/-- `applyLayout(layoutKey)`. -/
def applyLayout (st : FacadeState) (key : String) : FacadeState :=
  if !st.hasCy || st.isLayoutRunning then st
  else
    let st1 := { st with isLayoutRunning := true, resizeHandles := [] }
    if key ∈ layoutKeys then
      { st1 with startedLayouts := st1.startedLayouts ++ [key] }
    else st1

/-- The `layoutstop` handler: clear the running flag, then (if the instance
is alive and nodes are selected) regenerate the handles; `newHandles` stands
for the screen-space handles `createResizeHandles` computes. -/
def onLayoutStop (st : FacadeState) (newHandles : List String) : FacadeState :=
  if st.hasCy && decide (0 < st.selectedCount) then
    { st with isLayoutRunning := false, resizeHandles := newHandles }
  else { st with isLayoutRunning := false }

/-! ### Concrete sample inputs used by the theorems below -/

/-- The successfully parsed document, or an empty placeholder (used only to
read fields out of a result that is proven to be `.ok`). -/
def docOf (r : Except String GraphData) : GraphData :=
  match r with
  | .ok d => d
  | .error _ => { nodes := [], edges := [], metadata := ⟨"", "", 0, 0⟩ }

/-- A headered text sample: the edge introduces the node `C` that is not on
the header line. -/
def hdrSample : String := "Graph Nodes:\nA;B\n\nGraph Edges:\n1. A --> C"

/-- A simple edge-list sample: two valid lines, one malformed line. -/
def simpleSample : String := "a b\nc\nx y some label"

/-- Standard-shape JSON: `{nodes: [{id: a}], edges: [{source: a, target: a}]}`. -/
def vstd : JValue :=
  .obj [("nodes", .arr [.obj [("id", .str "a")]]),
        ("edges", .arr [.obj [("source", .str "a"), ("target", .str "a")]])]

/-- Custom-shape JSON whose two nodes carry the same name. -/
def vdup : JValue :=
  .obj [("graph", .obj [("nodes", .arr [.obj [("name", .str "a")], .obj [("name", .str "a")]]),
                        ("edgesSet", .arr [])])]

/-- A facade state with a live instance, no running layout, one selected node
and one visible handle. -/
def st0 : FacadeState :=
  { hasCy := true, isLayoutRunning := false, resizeHandles := ["h1"],
    startedLayouts := [], selectedCount := 1 }

/-- A facade state in which a layout run is in flight. -/
def stRunning : FacadeState :=
  { hasCy := true, isLayoutRunning := true, resizeHandles := [],
    startedLayouts := ["dagre"], selectedCount := 1 }

/-! ## Helper lemmas -/

theorem mem_setAdd {s : List String} {x y : String} :
    y ∈ setAdd s x ↔ y ∈ s ∨ y = x := by
  by_cases h : x ∈ s
  · simp only [setAdd, if_pos h]
    constructor
    · exact Or.inl
    · rintro (hy | rfl)
      · exact hy
      · exact h
  · simp [setAdd, if_neg h]

theorem mem_addEndpoints {ps : List (String × String)} {s : List String} {y : String} :
    y ∈ addEndpoints s ps ↔ y ∈ s ∨ ∃ p ∈ ps, y = p.1 ∨ y = p.2 := by
  induction ps generalizing s with
  | nil => simp [addEndpoints]
  | cons p ps ih =>
    show y ∈ addEndpoints (setAdd (setAdd s p.1) p.2) ps ↔ _
    rw [ih]
    simp only [mem_setAdd, List.mem_cons]
    constructor
    · rintro (((hy | rfl) | rfl) | ⟨q, hq, hv⟩)
      · exact Or.inl hy
      · exact Or.inr ⟨p, Or.inl rfl, Or.inl rfl⟩
      · exact Or.inr ⟨p, Or.inl rfl, Or.inr rfl⟩
      · exact Or.inr ⟨q, Or.inr hq, hv⟩
    · rintro (hy | ⟨q, (rfl | hq), hv⟩)
      · exact Or.inl (Or.inl (Or.inl hy))
      · rcases hv with rfl | rfl
        · exact Or.inl (Or.inl (Or.inr rfl))
        · exact Or.inl (Or.inr rfl)
      · exact Or.inr ⟨q, hq, hv⟩

theorem mem_addAll {xs : List String} {s : List String} {y : String} :
    y ∈ addAll s xs ↔ y ∈ s ∨ y ∈ xs := by
  induction xs generalizing s with
  | nil => simp [addAll]
  | cons x xs ih =>
    show y ∈ addAll (setAdd s x) xs ↔ _
    rw [ih]
    simp only [mem_setAdd, List.mem_cons]
    tauto

theorem nodup_setAdd {s : List String} {x : String} (h : s.Nodup) :
    (setAdd s x).Nodup := by
  by_cases hx : x ∈ s
  · simpa [setAdd, if_pos hx] using h
  · simp only [setAdd, if_neg hx]
    simpa [List.nodup_append] using ⟨h, hx⟩

theorem nodup_addAll {xs s : List String} (h : s.Nodup) : (addAll s xs).Nodup := by
  induction xs generalizing s with
  | nil => exact h
  | cons x xs ih => exact ih (nodup_setAdd h)

theorem nodup_addEndpoints {ps : List (String × String)} {s : List String}
    (h : s.Nodup) : (addEndpoints s ps).Nodup := by
  induction ps generalizing s with
  | nil => exact h
  | cons p ps ih => exact ih (nodup_setAdd (nodup_setAdd h))

theorem txtParse_fst_nodup (content : String) : (txtParse content).1.Nodup := by
  cases hb : hasSubstr nodesMarker.data content.data && hasSubstr edgesMarker.data content.data
  · simp only [txtParse, hb]
    simp only [Bool.false_eq_true, if_false]
    exact nodup_addEndpoints List.nodup_nil
  · simp only [txtParse, hb, if_true]
    cases hni : (txtLines content).findIdx? fun l => hasSubstr nodesMarker.data l.data with
    | none => simp [hni]
    | some ni =>
      cases hei : (txtLines content).findIdx? fun l => hasSubstr edgesMarker.data l.data with
      | none => simp [hni, hei]
      | some ei =>
        simp only [hni, hei]
        exact nodup_addEndpoints (nodup_addAll List.nodup_nil)

theorem exists_headerEdge_endpoint {ps : List (String × String)} {i : Nat} {s : String} :
    (∃ r ∈ mapWithIndex mkHeaderEdge i ps,
        recGetD r "source" = .str s ∨ recGetD r "target" = .str s)
      ↔ ∃ p ∈ ps, s = p.1 ∨ s = p.2 := by
  induction ps generalizing i with
  | nil => simp [mapWithIndex]
  | cons p ps ih =>
    simp only [mapWithIndex, List.mem_cons, exists_eq_or_imp]
    rw [ih]
    simp [mkHeaderEdge, recGetD, eq_comm]

theorem simpleParsed_length (ls : List String) :
    ∀ i, (simpleParsed i ls).length
      = (ls.filter fun l => decide (2 ≤ (jsSplitWs l).length)).length := by
  induction ls with
  | nil => intro i; rfl
  | cons l rest ih =>
    intro i
    rcases hsp : jsSplitWs l with _ | ⟨s, tl⟩
    · simp [simpleParsed, hsp, ih, List.filter_cons]
    · rcases tl with _ | ⟨t, rem⟩
      · simp [simpleParsed, hsp, ih, List.filter_cons]
      · simp [simpleParsed, hsp, ih, List.filter_cons, Nat.le_add_left]

theorem simpleParsed_mem {ls : List String} :
    ∀ {i : Nat} {q : Nat × String × String × List String}, q ∈ simpleParsed i ls →
      ∃ l ∈ ls, jsSplitWs l = q.2.1 :: q.2.2.1 :: q.2.2.2 := by
  induction ls with
  | nil => intro i q hq; cases hq
  | cons l rest ih =>
    intro i q hq
    rcases hsp : jsSplitWs l with _ | ⟨s, _ | ⟨t, rem⟩⟩
    · rw [simpleParsed, hsp] at hq
      obtain ⟨l2, hl2, hq2⟩ := ih hq
      exact ⟨l2, List.mem_cons_of_mem _ hl2, hq2⟩
    · rw [simpleParsed, hsp] at hq
      obtain ⟨l2, hl2, hq2⟩ := ih hq
      exact ⟨l2, List.mem_cons_of_mem _ hl2, hq2⟩
    · rw [simpleParsed, hsp] at hq
      rcases List.mem_cons.mp hq with rfl | hq2
      · exact ⟨l, List.mem_cons_self _ _, hsp⟩
      · obtain ⟨l2, hl2, hq2⟩ := ih hq2
        exact ⟨l2, List.mem_cons_of_mem _ hl2, hq2⟩

theorem getShapeConstraints_minSize (sh : String) :
    (getShapeConstraints sh).minSize = 30 := by
  unfold getShapeConstraints
  split
  · rfl
  · split <;> rfl

theorem getShapeConstraints_maxSize (sh : String) :
    (getShapeConstraints sh).maxSize = 200 := by
  unfold getShapeConstraints
  split
  · rfl
  · split <;> rfl

theorem clampSize_mem (sh : String) (x : Rat) :
    30 ≤ clampSize (getShapeConstraints sh) x
      ∧ clampSize (getShapeConstraints sh) x ≤ 200 := by
  unfold clampSize
  rw [getShapeConstraints_minSize, getShapeConstraints_maxSize]
  exact ⟨le_max_left _ _, max_le (by norm_num) (min_le_left _ _)⟩

theorem clampSize_of_lt {sh : String} {x : Rat} (h : x < 30) :
    clampSize (getShapeConstraints sh) x = 30 := by
  unfold clampSize
  rw [getShapeConstraints_minSize, getShapeConstraints_maxSize]
  rw [min_eq_right (le_of_lt (lt_of_lt_of_le h (by norm_num)))]
  exact max_eq_left (le_of_lt h)

theorem cornerSizes_bounds (ds : DragState) (adjX adjY : Rat)
    (hpos : ds.position = "br" ∨ ds.position = "bl"
      ∨ ds.position = "tr" ∨ ds.position = "tl") :
    (30 ≤ (cornerSizes ds adjX adjY).1 ∧ (cornerSizes ds adjX adjY).1 ≤ 200)
    ∧ (30 ≤ (cornerSizes ds adjX adjY).2 ∧ (cornerSizes ds adjX adjY).2 ≤ 200) := by
  rcases hpos with h | h | h | h <;>
    simp only [cornerSizes, h] <;>
    simp <;>
    exact ⟨clampSize_mem _ _, clampSize_mem _ _⟩

theorem handleResizeMove_free (ds : DragState) (dX dY zoom : Rat)
    (hA : (getShapeConstraints ds.shape).keepAspect = false) :
    handleResizeMove ds dX dY zoom
      = ⟨(cornerSizes ds (dX / zoom) (dY / zoom)).1,
         (cornerSizes ds (dX / zoom) (dY / zoom)).2⟩ := by
  simp [handleResizeMove, hA]

theorem handleResizeMove_regular_square (ds : DragState) (dX dY zoom : Rat)
    (hA : (getShapeConstraints ds.shape).keepAspect = true)
    (hwh : ds.originalWidth = ds.originalHeight)
    (hw0 : ds.originalWidth ≠ 0) :
    handleResizeMove ds dX dY zoom
        = ⟨(cornerSizes ds (dX / zoom) (dY / zoom)).1,
           (cornerSizes ds (dX / zoom) (dY / zoom)).1⟩
    ∨ handleResizeMove ds dX dY zoom
        = ⟨(cornerSizes ds (dX / zoom) (dY / zoom)).2,
           (cornerSizes ds (dX / zoom) (dY / zoom)).2⟩ := by
  have ha : ds.originalWidth / ds.originalHeight = 1 := by
    rw [← hwh]; exact div_self hw0
  by_cases hgt : |dX / zoom| > |dY / zoom|
  · left
    simp only [handleResizeMove, hA, if_true, ha, if_pos hgt, div_one]
  · right
    simp only [handleResizeMove, hA, if_true, ha, if_neg hgt, mul_one]

/-! ## Claim theorems -/

/-- C1: for every headered text input (both markers present), the parsed
node-id set is exactly the union of the header-line names (split on `;`,
trimmed, empties dropped — empty when the marker lines are not both located,
exactly as in the source) and the endpoints of every parsed edge, and the
metadata counts equal the array lengths. -/
theorem processTxtFile_headered_nodeSet (content fileName : String)
    (h : (hasSubstr nodesMarker.data content.data
            && hasSubstr edgesMarker.data content.data) = true) :
    (∀ s : String,
        JValue.str s ∈ nodeIdsOf (processTxtFile content fileName) ↔
          s ∈ headerNamesOf content ∨
            ∃ r ∈ (processTxtFile content fileName).edges,
              recGetD r "source" = .str s ∨ recGetD r "target" = .str s)
    ∧ (processTxtFile content fileName).metadata.nodeCount
        = (processTxtFile content fileName).nodes.length
    ∧ (processTxtFile content fileName).metadata.edgeCount
        = (processTxtFile content fileName).edges.length := by
  refine ⟨fun s => ?_, rfl, rfl⟩
  have hn : nodeIdsOf (processTxtFile content fileName)
      = (txtParse content).1.map JValue.str := by
    simp only [nodeIdsOf, processTxtFile, List.map_map]
    rfl
  have he : (processTxtFile content fileName).edges = (txtParse content).2 := rfl
  rw [hn, he]
  unfold headerNamesOf
  simp only [txtParse, h, if_true]
  cases hni : (txtLines content).findIdx? fun l => hasSubstr nodesMarker.data l.data with
  | none => simp [hni]
  | some ni =>
    cases hei : (txtLines content).findIdx? fun l => hasSubstr edgesMarker.data l.data with
    | none => simp [hni, hei]
    | some ei =>
      simp only [hni, hei]
      rw [exists_headerEdge_endpoint]
      simp only [List.mem_map, JValue.str.injEq, exists_eq_right,
        mem_addEndpoints, mem_addAll, List.not_mem_nil, false_or]

/-- C1 (witness): the sample headered input, instantiated at the node `C`,
which only the edge line introduces. -/
theorem processTxtFile_headered_nodeSet_witness :
    JValue.str "C" ∈ nodeIdsOf (processTxtFile hdrSample "g.txt") ↔
      "C" ∈ headerNamesOf hdrSample ∨
        ∃ r ∈ (processTxtFile hdrSample "g.txt").edges,
          recGetD r "source" = .str "C" ∨ recGetD r "target" = .str "C" :=
  (processTxtFile_headered_nodeSet hdrSample "g.txt" (by decide)).1 "C"

/-- C2: for every simple edge-list input (markers not both present), the
number of edges equals the number of non-blank lines with at least two
whitespace tokens, and every produced edge comes from such a line with
source/target its first two tokens and label the remaining tokens joined by
one space (the `label` key holding `undefined` when there are none).  The
processor is a total function, so no input throws. -/
theorem processTxtFile_simple_edges (content fileName : String)
    (h : (hasSubstr nodesMarker.data content.data
            && hasSubstr edgesMarker.data content.data) = false) :
    (processTxtFile content fileName).edges.length
      = ((txtLines content).filter fun l => decide (2 ≤ (jsSplitWs l).length)).length
    ∧ ∀ r ∈ (processTxtFile content fileName).edges,
        ∃ l ∈ txtLines content, ∃ s t rem, jsSplitWs l = s :: t :: rem
          ∧ recGetD r "source" = .str s ∧ recGetD r "target" = .str t
          ∧ recGetD r "label" = simpleLabel rem := by
  have he : (processTxtFile content fileName).edges = (txtParse content).2 := rfl
  rw [he]
  simp only [txtParse, h]
  simp only [Bool.false_eq_true, if_false]
  constructor
  · rw [List.length_map]
    exact simpleParsed_length _ 0
  · intro r hr
    rw [List.mem_map] at hr
    obtain ⟨q, hq, rfl⟩ := hr
    obtain ⟨l, hl, hsp⟩ := simpleParsed_mem hq
    exact ⟨l, hl, q.2.1, q.2.2.1, q.2.2.2, hsp,
      by simp [mkSimpleEdge, recGetD], by simp [mkSimpleEdge, recGetD],
      by simp [mkSimpleEdge, recGetD]⟩

/-- C2 (witness): the sample edge list has two valid lines and one malformed
line, and exactly two edges. -/
theorem processTxtFile_simple_edges_witness :
    (processTxtFile simpleSample "s.txt").edges.length
      = ((txtLines simpleSample).filter fun l => decide (2 ≤ (jsSplitWs l).length)).length
    ∧ (processTxtFile simpleSample "s.txt").edges.length = 2 :=
  ⟨(processTxtFile_simple_edges simpleSample "s.txt" (by decide)).1, by decide⟩

/-- C10: `processTxtFile` is a total function mirroring the source (whose
body guards every partial operation), always produces metadata counts equal
to the array lengths, and on empty content or content with only one of the
two markers still returns a document — possibly with zero nodes and edges,
the single-marker case falling to the simple edge-list branch. -/
theorem processTxtFile_total_wellFormed :
    (∀ content fileName : String,
        (processTxtFile content fileName).metadata.nodeCount
          = (processTxtFile content fileName).nodes.length
        ∧ (processTxtFile content fileName).metadata.edgeCount
          = (processTxtFile content fileName).edges.length)
    ∧ (processTxtFile "" "empty.txt").nodes = []
    ∧ (processTxtFile "" "empty.txt").edges = []
    ∧ (processTxtFile "Graph Nodes:\nA;B" "half.txt").metadata.nodeCount = 2
    ∧ (processTxtFile "Graph Nodes:\nA;B" "half.txt").metadata.edgeCount = 1
    ∧ (processTxtFile "Graph Edges:\n1. A --> B" "half2.txt").metadata.fileType = "txt" :=
  ⟨fun c f => ⟨rfl, rfl⟩, rfl, rfl, rfl, rfl, rfl⟩

/-- C4 (counterexample): the custom nested-JSON branch maps the node array
through without deduplication, so duplicate names survive as duplicate ids —
the parsed document for two nodes named `a` has node-id list `[a, a]`,
refuting pairwise distinctness (and there is no last-writer collapse). -/
theorem processJson_duplicate_ids_survive :
    nodeIdsOf (docOf (processJsonFile (.ok vdup) "d.json")) = [.str "a", .str "a"]
    ∧ ¬ (nodeIdsOf (docOf (processJsonFile (.ok vdup) "d.json"))).Nodup := by
  have hids : nodeIdsOf (docOf (processJsonFile (.ok vdup) "d.json"))
      = [.str "a", .str "a"] := by
    simp [processJsonFile, vdup, processJsonValue, recGetD, jsGet, JValue.truthy,
          wrapE, customBranch, jsMapIdxM, mapME, customNodeRec, customEdgeRec,
          jsOr, JValue.getE, docOf, nodeIdsOf,
          Except.bind, bind, pure, Except.pure]
  refine ⟨hids, ?_⟩
  rw [hids]
  intro hnd
  exact (List.nodup_cons.mp hnd).1 (List.mem_singleton.mpr rfl)

/-- C4 (amended): the text-parser branches build the node list from an
insertion-ordered set, so their node ids are pairwise distinct for every
input; the JSON branches copy node arrays through `.map` without collapsing
duplicates (see the counterexample). -/
theorem processTxtFile_nodeIds_nodup (content fileName : String) :
    (nodeIdsOf (processTxtFile content fileName)).Nodup := by
  have hmap : nodeIdsOf (processTxtFile content fileName)
      = (txtParse content).1.map JValue.str := by
    simp only [nodeIdsOf, processTxtFile, List.map_map]
    rfl
  rw [hmap]
  exact (txtParse_fst_nodup content).map fun x y hxy => JValue.str.inj hxy

/-- C5: the standard JSON shape `{nodes: [{id: a}], edges: [{source: a,
target: a}]}` parses to exactly one node with id `a` and one self-loop edge
with source and target `a`, and reading the canonical document back
reproduces those values (the full canonical document is pinned, so
re-serialization is determined by it). -/
theorem processJson_standard_selfloop_roundtrip :
    processJsonFile (.ok vstd) "g.json"
      = .ok { nodes := [[("id", .str "a"), ("label", .str "a")]],
              edges := [[("id", .str "edge-0"), ("source", .str "a"),
                         ("target", .str "a"), ("label", .undefined)]],
              metadata := { fileType := "json", fileName := "g.json",
                            nodeCount := 1, edgeCount := 1 } }
    ∧ nodeIdsOf (docOf (processJsonFile (.ok vstd) "g.json")) = [.str "a"]
    ∧ (docOf (processJsonFile (.ok vstd) "g.json")).edges.map
        (fun r => recGetD r "source") = [.str "a"]
    ∧ (docOf (processJsonFile (.ok vstd) "g.json")).edges.map
        (fun r => recGetD r "target") = [.str "a"]
    ∧ (docOf (processJsonFile (.ok vstd) "g.json")).nodes.length = 1
    ∧ (docOf (processJsonFile (.ok vstd) "g.json")).edges.length = 1 := by
  have hdoc : processJsonFile (.ok vstd) "g.json"
      = .ok { nodes := [[("id", .str "a"), ("label", .str "a")]],
              edges := [[("id", .str "edge-0"), ("source", .str "a"),
                         ("target", .str "a"), ("label", .undefined)]],
              metadata := { fileType := "json", fileName := "g.json",
                            nodeCount := 1, edgeCount := 1 } } := by
    simp [processJsonFile, vstd, processJsonValue, recGetD, jsGet, JValue.truthy,
          wrapE, standardBranch, jsMapIdxM, mapME, stdNodeRec, stdEdgeRec, jsEntries,
          jsOr, JValue.getE, recSet, JValue.isScalar, jsLengthNat, idxPairs,
          Except.bind, bind, pure, Except.pure]
    decide
  refine ⟨hdoc, ?_, ?_, ?_, ?_, ?_⟩ <;> rw [show docOf (processJsonFile (.ok vstd) "g.json")
      = { nodes := [[("id", .str "a"), ("label", .str "a")]],
          edges := [[("id", .str "edge-0"), ("source", .str "a"),
                     ("target", .str "a"), ("label", .undefined)]],
          metadata := { fileType := "json", fileName := "g.json",
                        nodeCount := 1, edgeCount := 1 } } from by rw [hdoc]; rfl] <;>
    simp [nodeIdsOf, recGetD]

/-- C6 (counterexample): the claim quantifies over every drag state, but the
aspect-ratio override runs after the clamps, so a regular-shape drag state
whose recorded original sizes differ can produce a width outside `[30, 200]`:
a `circle` drag at 200×100 from the bottom-right handle with a pure-vertical
delta of 200 px at zoom 1 yields width 400. -/
theorem resize_tick_width_escapes_range :
    (handleResizeMove ⟨"br", 200, 100, "circle"⟩ 0 200 1).width = 400
    ∧ ¬ ((handleResizeMove ⟨"br", 200, 100, "circle"⟩ 0 200 1).width ≤ 200) := by
  constructor
  · norm_num [handleResizeMove, cornerSizes, clampSize, getShapeConstraints]
  · norm_num [handleResizeMove, cornerSizes, clampSize, getShapeConstraints]

/-- C6 (amended): for a drag from one of the four corner handles at positive
zoom, if the active shape is non-regular, or it is regular and the recorded
original width and height are equal and positive, then the computed width and
height lie within `[30, 200]`; moreover in the non-regular case a
bottom-right drag whose raw width computation falls below 30 yields exactly
30. -/
theorem resize_tick_sizes_clamped (ds : DragState) (dX dY zoom : Rat)
    (hz : 0 < zoom)
    (hpos : ds.position = "br" ∨ ds.position = "bl"
      ∨ ds.position = "tr" ∨ ds.position = "tl")
    (hshape : (getShapeConstraints ds.shape).keepAspect = false
      ∨ (ds.originalWidth = ds.originalHeight ∧ 0 < ds.originalWidth)) :
    (30 ≤ (handleResizeMove ds dX dY zoom).width
      ∧ (handleResizeMove ds dX dY zoom).width ≤ 200
      ∧ 30 ≤ (handleResizeMove ds dX dY zoom).height
      ∧ (handleResizeMove ds dX dY zoom).height ≤ 200)
    ∧ ((getShapeConstraints ds.shape).keepAspect = false → ds.position = "br" →
        ds.originalWidth + dX / zoom / 2 < 30 →
        (handleResizeMove ds dX dY zoom).width = 30) := by
  have hb := cornerSizes_bounds ds (dX / zoom) (dY / zoom) hpos
  constructor
  · by_cases hA : (getShapeConstraints ds.shape).keepAspect = true
    · rcases hshape with hF | ⟨hwh, hw0⟩
      · rw [hF] at hA; cases hA
      · rcases handleResizeMove_regular_square ds dX dY zoom hA hwh (ne_of_gt hw0)
          with heq | heq <;> rw [heq]
        · exact ⟨hb.1.1, hb.1.2, hb.1.1, hb.1.2⟩
        · exact ⟨hb.2.1, hb.2.2, hb.2.1, hb.2.2⟩
    · have hF : (getShapeConstraints ds.shape).keepAspect = false := by
        revert hA; cases (getShapeConstraints ds.shape).keepAspect <;> simp
      rw [handleResizeMove_free ds dX dY zoom hF]
      exact ⟨hb.1.1, hb.1.2, hb.2.1, hb.2.2⟩
  · intro hF hbr hlt
    rw [handleResizeMove_free ds dX dY zoom hF]
    show (cornerSizes ds (dX / zoom) (dY / zoom)).1 = 30
    simp only [cornerSizes, hbr]
    simp
    exact clampSize_of_lt hlt

/-- C6 (witness for the amended theorem): a rectangle (non-regular) dragged
from the bottom-right handle by −100 px horizontally at zoom 1, whose raw
width computation is 10, clamps to exactly 30, and all sizes stay in range. -/
theorem resize_tick_sizes_clamped_witness :
    (30 ≤ (handleResizeMove ⟨"br", 60, 50, "rectangle"⟩ (-100) 0 1).width
      ∧ (handleResizeMove ⟨"br", 60, 50, "rectangle"⟩ (-100) 0 1).width ≤ 200
      ∧ 30 ≤ (handleResizeMove ⟨"br", 60, 50, "rectangle"⟩ (-100) 0 1).height
      ∧ (handleResizeMove ⟨"br", 60, 50, "rectangle"⟩ (-100) 0 1).height ≤ 200)
    ∧ ((getShapeConstraints (DragState.mk "br" 60 50 "rectangle").shape).keepAspect = false →
        (DragState.mk "br" 60 50 "rectangle").position = "br" →
        (DragState.mk "br" 60 50 "rectangle").originalWidth + (-100) / 1 / 2 < 30 →
        (handleResizeMove ⟨"br", 60, 50, "rectangle"⟩ (-100) 0 1).width = 30) :=
  resize_tick_sizes_clamped ⟨"br", 60, 50, "rectangle"⟩ (-100) 0 1
    (by norm_num) (Or.inl rfl) (Or.inl rfl)

/-- C7: for regular shapes (`keepAspect` constraint) the dimension whose
zoom-adjusted delta has the strictly larger absolute value keeps its clamped
switch value and the other dimension is derived from the original
width/height ratio; concretely, a 60×60 square dragged from the bottom-right
handle by (+40, +40) px at zoom 1 comes out with equal width and height, both
at most 200. -/
theorem resize_regular_aspect_rule :
    (∀ (ds : DragState) (dX dY zoom : Rat),
      (getShapeConstraints ds.shape).keepAspect = true →
        (|dX / zoom| > |dY / zoom| →
          handleResizeMove ds dX dY zoom
            = ⟨(cornerSizes ds (dX / zoom) (dY / zoom)).1,
               (cornerSizes ds (dX / zoom) (dY / zoom)).1
                 / (ds.originalWidth / ds.originalHeight)⟩)
        ∧ (|dY / zoom| > |dX / zoom| →
          handleResizeMove ds dX dY zoom
            = ⟨(cornerSizes ds (dX / zoom) (dY / zoom)).2
                 * (ds.originalWidth / ds.originalHeight),
               (cornerSizes ds (dX / zoom) (dY / zoom)).2⟩))
    ∧ (getShapeConstraints "square").keepAspect = true
    ∧ (handleResizeMove ⟨"br", 60, 60, "square"⟩ 40 40 1).width
        = (handleResizeMove ⟨"br", 60, 60, "square"⟩ 40 40 1).height
    ∧ (handleResizeMove ⟨"br", 60, 60, "square"⟩ 40 40 1).width ≤ 200 := by
  refine ⟨fun ds dX dY zoom hA => ⟨fun hgt => ?_, fun hlt => ?_⟩, by decide,
    by norm_num [handleResizeMove, cornerSizes, clampSize, getShapeConstraints],
    by norm_num [handleResizeMove, cornerSizes, clampSize, getShapeConstraints]⟩
  · simp only [handleResizeMove, hA, if_true, if_pos hgt]
  · have hn : ¬ (|dX / zoom| > |dY / zoom|) := lt_asymm hlt
    simp only [handleResizeMove, hA, if_true, if_neg hn]

/-- C7 (witness): a `circle` drag state at 60×30 with a dominant horizontal
delta: the width keeps its clamped switch value and the height is derived by
the original 2:1 ratio. -/
theorem resize_regular_aspect_rule_witness :
    (getShapeConstraints (DragState.mk "br" 60 30 "circle").shape).keepAspect = true
    ∧ handleResizeMove ⟨"br", 60, 30, "circle"⟩ 40 10 1
        = ⟨(cornerSizes ⟨"br", 60, 30, "circle"⟩ (40 / 1) (10 / 1)).1,
           (cornerSizes ⟨"br", 60, 30, "circle"⟩ (40 / 1) (10 / 1)).1
             / ((DragState.mk "br" 60 30 "circle").originalWidth
                 / (DragState.mk "br" 60 30 "circle").originalHeight)⟩ :=
  ⟨by decide,
   (resize_regular_aspect_rule.1 ⟨"br", 60, 30, "circle"⟩ 40 10 1 (by decide)).1 (by norm_num)⟩

/-- C8 (counterexample): `applyLayout` with an unknown key is not a no-op:
before the config lookup it has already set the layout-running flag and
cleared the resize-handle list, and the early return leaves both that way. -/
theorem applyLayout_unknown_mutates_state :
    (applyLayout st0 "nonexistent").isLayoutRunning = true
    ∧ st0.isLayoutRunning = false
    ∧ (applyLayout st0 "nonexistent").resizeHandles = []
    ∧ st0.resizeHandles = ["h1"]
    ∧ applyLayout st0 "nonexistent" ≠ st0 := by
  refine ⟨rfl, rfl, rfl, rfl, ?_⟩
  decide

/-- C8 (amended): with a live instance and no layout in flight, an unknown
key starts no layout (the started-layout log is unchanged), but the call
sets the layout-running flag and clears the resize-handle list before the
lookup, and the early return does not undo either. -/
theorem applyLayout_unknown_key (st : FacadeState) (key : String)
    (hcy : st.hasCy = true) (hrun : st.isLayoutRunning = false)
    (hkey : key ∉ layoutKeys) :
    applyLayout st key = { st with isLayoutRunning := true, resizeHandles := [] }
    ∧ (applyLayout st key).startedLayouts = st.startedLayouts := by
  unfold applyLayout
  simp [hcy, hrun, hkey]

/-- C8 (witness for the amended theorem). -/
theorem applyLayout_unknown_key_witness :
    applyLayout st0 "nope" = { st0 with isLayoutRunning := true, resizeHandles := [] }
    ∧ (applyLayout st0 "nope").startedLayouts = st0.startedLayouts :=
  applyLayout_unknown_key st0 "nope" rfl rfl (by decide)


/-- C9: while the layout-running flag is set, `applyLayout` is the identity
on the facade state (in particular no further layout is started), and the
`layoutstop` handler clears the flag. -/
theorem applyLayout_reentrant_ignored :
    (∀ (st : FacadeState) (key : String),
      st.isLayoutRunning = true → applyLayout st key = st)
    ∧ ∀ (st : FacadeState) (hs : List String),
        (onLayoutStop st hs).isLayoutRunning = false := by
  constructor
  · intro st key h
    unfold applyLayout
    simp [h]
  · intro st hs
    unfold onLayoutStop
    split <;> rfl


/-- C9 (witness): a second `applyLayout` during a run leaves the state
untouched, and completion clears the flag. -/
theorem applyLayout_reentrant_ignored_witness :
    applyLayout stRunning "circle" = stRunning
    ∧ (onLayoutStop stRunning ["h2"]).isLayoutRunning = false :=
  ⟨applyLayout_reentrant_ignored.1 stRunning "circle" rfl,
   applyLayout_reentrant_ignored.2 stRunning ["h2"]⟩

end DagViz
